import Mathlib

/-!
Shallow embedding of the analytical-comparison core of
`examples/drift_expansion/sc_drift_expansion.ipynb` (radiasoft/rs_synergia):
the perveance calculator, the envelope slope function, the single-step
integrators and the envelope-expansion driver, together with proofs of the
specified properties.

Modelling conventions:
* Python floats are modelled as elements of a linear ordered field `α`
  (instantiated with `ℝ` in the theorems; keeping the definitions
  polymorphic leaves them executable, e.g. over `ℚ`).  `np.sqrt`, `np.log`
  and `np.pi` are modelled by `Real.sqrt`, `Real.log` and `Real.pi`; since
  those are not algebraic operations they are passed to the embedded
  definitions as explicit parameters `sqrt`, `log`, `pi` and instantiated
  in the theorems.
* The notebook runs on a Python 2 kernel (notebook metadata: `kernelspec`
  "Python 2", `language_info.version` "2.7.12").  The cell that defines
  `Ralston` precedes the cell containing `from __future__ import division`,
  so inside `Ralston` the token `2/3` is classic integer division and
  evaluates to `0`.  That fact is embedded explicitly as `py2_two_thirds`.
* The function `calculate_expansion` reads the notebook globals
  `reference_particle` and `rprime0` (its parameters `reference_paricle`
  — a typo in the source — and `rp0` are never used in its body).  The
  ambient session state it actually consumes is made explicit as a value of
  the structure `Ambient`.
-/

set_option linter.unusedVariables false

/-- Model of the `synergia` reference-particle object: the only methods the
notebook's analytical core calls are `get_beta` and `get_gamma`. -/
structure Reference_particle (α : Type*) where
  beta : α
  gamma : α

/-- Accessor `ref.get_beta()`. -/
def Reference_particle.get_beta {α : Type*} (ref : Reference_particle α) : α :=
  ref.beta

/-- Accessor `ref.get_gamma()`. -/
def Reference_particle.get_gamma {α : Type*} (ref : Reference_particle α) : α :=
  ref.gamma

/-- Ambient notebook session state read by the body of
`calculate_expansion`: the global `reference_particle` built in the options
cell and the global `rprime0` defined in the cell that calls the driver. -/
structure Ambient (α : Type*) where
  reference_particle : Reference_particle α
  rprime0 : α

section Embedding

variable {α : Type*} [LinearOrderedField α]

/-- Value of `scipy.constants.epsilon_0` (vacuum permittivity, CODATA 2018). -/
def scipy_epsilon_0 : α := 8.8541878128e-12

/-- Value of `scipy.constants.m_p` (proton mass, CODATA 2018). -/
def scipy_m_p : α := 1.67262192369e-27

/-- Value of `scipy.constants.c` (speed of light, exact). -/
def scipy_c : α := 299792458

/-- Value of `scipy.constants.e` (elementary charge, exact SI). -/
def scipy_e : α := 1.602176634e-19

/-- `calc_perveance(I, ref, cn=0)` from the notebook: the hard-coded local
`I0 = 3.13e7` and the return value `(I/I0)*(2/beta**3)*(1/gamma**3)`.
The charge-neutralization factor `cn` defaults to `0` in the source and is
not used in the body. -/
def calc_perveance (I : α) (ref : Reference_particle α) (cn : α) : α :=
  let I0 : α := 3.13e7
  let beta := ref.get_beta
  let gamma := ref.get_gamma
  (I / I0) * (2 / beta ^ 3) * (1 / gamma ^ 3)

/-- `calc_characteristic_current()` from the notebook:
`4*np.pi*scipy.constants.epsilon_0*scipy.constants.m_p*(scipy.constants.c**3)/scipy.constants.e`.
`np.pi` is passed as the parameter `pi` (instantiated with `Real.pi` in the
theorems). -/
def calc_characteristic_current (pi : α) : α :=
  4 * pi * scipy_epsilon_0 * scipy_m_p * scipy_c ^ 3 / scipy_e

/-- The value of the token `(2/3)` inside the notebook's definition of
`Ralston`.  On the notebook's Python 2 kernel, and with the defining cell
preceding the `from __future__ import division` cell, `/` on the integers
`2` and `3` is classic (floor) division, so `2/3` evaluates to `0`. -/
def py2_two_thirds : α := ((2 / 3 : ℤ) : α)

/-- `Ralston(r, z, h, f)` from the notebook, as executed by the Python 2
kernel: `k1 = h*f(r)` and the return value `0.25*k1 + 0.75*h*f(r+(2/3)*k1)`
where `(2/3)` is the integer-division value `py2_two_thirds = 0`.  The `z`
argument is not used by the body. -/
def Ralston (r z h : α) (f : α → α) : α :=
  let k1 := h * f r
  0.25 * k1 + 0.75 * h * f (r + py2_two_thirds * k1)

/-- `RungeKutta4(r, z, h, f)` from the notebook (defined but unused by the
driver).  All of its divisions have a float operand, so they are true
divisions even on the Python 2 kernel. -/
def RungeKutta4 (r z h : α) (f : α → α) : α :=
  let k1 := f r
  let k2 := f (r + h / 2 * k1)
  let k3 := f (r + h / 2 * k2)
  let k4 := f (r + h * k3)
  h / 6 * (k1 + 2 * k2 + 2 * k3 + k4)

/-- The bracketed expression `first + second + third` inside `rprime`:
`rp0**2 + (emit**2)*((1./r0**2)-(1./rm**2)) + 2*K*np.log(rm/r0)/4`. -/
def radicand (log : α → α) (K emit r0 rp0 rm : α) : α :=
  let first := rp0 ^ 2
  let second := emit ^ 2 * (1 / r0 ^ 2 - 1 / rm ^ 2)
  let third := 2 * K * log (rm / r0) / 4
  first + second + third

/-- `rprime(K, emit, r0, rp0, rm)` from the notebook: the slope of the beam
envelope, `np.sqrt` applied unconditionally to the bracketed expression
(the source contains no guard and no error path). -/
def rprime (sqrt log : α → α) (K emit r0 rp0 rm : α) : α :=
  sqrt (radicand log K emit r0 rp0 rm)

/-- The `while z < zf` loop of `calculate_expansion`:
`points.append((z, r))` followed by the simultaneous update
`z, r = z+dz, r + Ralston(r, z, dz, f)`.  The loop is written with an
explicit iteration bound (fuel); the theorem for the termination claim
proves that any fuel at least `N` yields the same list as fuel `N` when
`dz = (zf-0)/N` with `1 ≤ N` and `0 < zf`, i.e. that the source's
unbounded while loop terminates after exactly the bounded recursion's
iterations. -/
def expansionLoop (f : α → α) (dz zf : α) : ℕ → α → α → List (α × α)
  | 0, _, _ => []
  | n + 1, z, r =>
    if z < zf then
      (z, r) :: expansionLoop f dz zf n (z + dz) (r + Ralston r z dz f)
    else []

/-- `calculate_expansion(current, reference_paricle, r0, rp0, emit, N, zf)`
from the notebook.  The body computes `ss = (zf - z0)/N` with `z0 = 0.0`,
the perveance `Kp = calc_perveance(current, reference_particle)` — note the
global `reference_particle` from `amb`, not the (misspelled) parameter
`reference_paricle` — and the slope closure
`f = lambda r: rprime(Kp, emit, r0, rprime0, r)` — note the global
`rprime0` from `amb`, not the parameter `rp0` — then runs the while loop
from `(z, r) = (0, r0)`.  In the notebook the defaults are `emit` = the
session's measured emittance, `N = 1000` and
`zf = opts.turns * lattice.get_length() = 3.0`; here all three are explicit
arguments.  (The source also builds an unused `np.linspace` array `zpoints`
and an unused list `rpoints`; they do not affect the result and are
omitted.) -/
def calculate_expansion (sqrt log : α → α) (amb : Ambient α) (current : α)
    (reference_paricle : Reference_particle α) (r0 rp0 emit : α) (N : ℕ)
    (zf : α) : List (α × α) :=
  let z0 : α := 0
  let ss := (zf - z0) / (N : α)
  let Kp := calc_perveance current amb.reference_particle 0
  let f := fun r => rprime sqrt log Kp emit r0 amb.rprime0 r
  expansionLoop f ss zf N z0 r0

end Embedding

section LoopLemmas

variable {α : Type*} [LinearOrderedField α]

/-- On the Python 2 kernel `py2_two_thirds = 0`, so the `Ralston` stepper
degenerates to a forward-Euler increment `h * f r`. -/
theorem Ralston_eq_euler (r z h : α) (f : α → α) : Ralston r z h f = h * f r := by
  have h23 : (py2_two_thirds : α) = 0 := by norm_num [py2_two_thirds]
  simp only [Ralston, h23, zero_mul, add_zero]
  ring

theorem expansionLoop_of_not_lt (f : α → α) (dz zf : α) (n : ℕ) (z r : α)
    (h : ¬ z < zf) : expansionLoop f dz zf n z r = [] := by
  cases n <;> simp [expansionLoop, h]

theorem expansionLoop_head_or_nil (f : α → α) (dz zf : α) (n : ℕ) (z r : α) :
    (expansionLoop f dz zf n z r).head? = some (z, r) ∨
      expansionLoop f dz zf n z r = [] := by
  cases n with
  | zero => exact Or.inr rfl
  | succ m =>
    by_cases h : z < zf
    · exact Or.inl (by simp [expansionLoop, h])
    · exact Or.inr (by simp [expansionLoop, h])

theorem expansionLoop_length (f : α → α) (dz zf : α) :
    ∀ (n : ℕ) (z r : α), (∀ k : ℕ, k < n → z + k * dz < zf) →
      (expansionLoop f dz zf n z r).length = n := by
  intro n
  induction n with
  | zero => intro z r _; rfl
  | succ m ih =>
    intro z r hk
    have h0 : z < zf := by simpa using hk 0 m.succ_pos
    have htail : ∀ k : ℕ, k < m → (z + dz) + k * dz < zf := by
      intro k hkm
      have hstep := hk (k + 1) (Nat.succ_lt_succ hkm)
      push_cast at hstep ⊢
      linarith
    simp [expansionLoop, h0, ih _ _ htail]

theorem expansionLoop_stable (f : α → α) (dz zf : α) :
    ∀ (n m : ℕ) (z r : α), zf ≤ z + n * dz → n ≤ m →
      expansionLoop f dz zf m z r = expansionLoop f dz zf n z r := by
  intro n
  induction n with
  | zero =>
    intro m z r hzf _
    have h : ¬ z < zf := not_lt.2 (by simpa using hzf)
    rw [expansionLoop_of_not_lt f dz zf m z r h,
      expansionLoop_of_not_lt f dz zf 0 z r h]
  | succ k ih =>
    intro m z r hzf hkm
    cases m with
    | zero => exact absurd hkm (by omega)
    | succ m' =>
      by_cases h : z < zf
      · simp only [expansionLoop, if_pos h]
        congr 1
        refine ih m' (z + dz) (r + Ralston r z dz f) ?_ (by omega)
        push_cast at hzf ⊢
        linarith
      · rw [expansionLoop_of_not_lt f dz zf _ _ _ h,
          expansionLoop_of_not_lt f dz zf _ _ _ h]

theorem expansionLoop_chain (f : α → α) (dz zf : α)
    (R : α × α → α × α → Prop)
    (hR : ∀ z r, z < zf → R (z, r) (z + dz, r + Ralston r z dz f)) :
    ∀ (n : ℕ) (z r : α), List.Chain' R (expansionLoop f dz zf n z r) := by
  intro n
  induction n with
  | zero => intro z r; exact List.chain'_nil
  | succ m ih =>
    intro z r
    by_cases h : z < zf
    · simp only [expansionLoop, if_pos h]
      rw [List.chain'_cons']
      refine ⟨?_, ih _ _⟩
      intro y hy
      rcases expansionLoop_head_or_nil f dz zf m (z + dz)
          (r + Ralston r z dz f) with hh | hnil
      · rw [hh] at hy
        simp only [Option.mem_def, Option.some_inj] at hy
        exact hy ▸ hR z r h
      · rw [hnil] at hy
        simp at hy
    · simp [expansionLoop_of_not_lt f dz zf _ _ _ h]

end LoopLemmas

section ClaimTheorems

/-- C1: the claim states that `Ralston` returns
`0.25*k1 + 0.75*h*f(r + (2/3)*k1)` with `k1 = h*f(r)`, the second slope
being evaluated at `r + (2/3)*k1`.  On the notebook's Python 2 kernel the
literal `2/3` is integer division and evaluates to `0`, so the code
actually returns the forward-Euler increment `h*f(r)`.  At
`r = 0, z = 0, h = 1, f = fun x => x + 1` the code returns `1`, while the
claimed Ralston increment (with true division, spelled out on the right)
equals `3/2`. -/
theorem Ralston_py2_division_eval :
    Ralston (0 : ℝ) 0 1 (fun x => x + 1) = 1 ∧
      0.25 * (1 * ((0 : ℝ) + 1)) +
        0.75 * 1 * ((0 + 2 / 3 * (1 * ((0 : ℝ) + 1))) + 1) = 3 / 2 := by
  constructor
  · rw [Ralston_eq_euler]
    norm_num
  · norm_num

/-- C3: for `r0 ≠ 0`, `rm > 0` and a non-negative bracketed expression,
`rprime` returns exactly the non-negative square root of
`rp0^2 + emit^2*(1/r0^2 - 1/rm^2) + (K/2)*ln(rm/r0)`. -/
theorem rprime_nonneg_sqrt (K emit r0 rp0 rm : ℝ) (hr0 : r0 ≠ 0)
    (hrm : 0 < rm)
    (hb : 0 ≤ rp0 ^ 2 + emit ^ 2 * (1 / r0 ^ 2 - 1 / rm ^ 2) +
      K / 2 * Real.log (rm / r0)) :
    0 ≤ rprime Real.sqrt Real.log K emit r0 rp0 rm ∧
      rprime Real.sqrt Real.log K emit r0 rp0 rm ^ 2 =
        rp0 ^ 2 + emit ^ 2 * (1 / r0 ^ 2 - 1 / rm ^ 2) +
          K / 2 * Real.log (rm / r0) := by
  have harg : radicand Real.log K emit r0 rp0 rm =
      rp0 ^ 2 + emit ^ 2 * (1 / r0 ^ 2 - 1 / rm ^ 2) +
        K / 2 * Real.log (rm / r0) := by
    simp only [radicand]
    ring
  refine ⟨Real.sqrt_nonneg _, ?_⟩
  rw [rprime, harg, Real.sq_sqrt hb]

/-- Witness for C3 at `K = 0, emit = 0, r0 = 1, rp0 = 2, rm = 1`. -/
theorem rprime_nonneg_sqrt_witness :
    0 ≤ rprime Real.sqrt Real.log 0 0 1 2 1 ∧
      rprime Real.sqrt Real.log 0 0 1 2 1 ^ 2 =
        (2 : ℝ) ^ 2 + 0 ^ 2 * (1 / 1 ^ 2 - 1 / 1 ^ 2) +
          0 / 2 * Real.log (1 / 1) :=
  rprime_nonneg_sqrt 0 0 1 2 1 (by norm_num) (by norm_num) (by norm_num)

/-- C10: at `rm = r0` with `r0 > 0`, the log argument is `r0/r0 = 1`
(no `log 0`), the log evaluates to `0`, the emittance term
`1/r0^2 - 1/rm^2` is exactly `0`, and `rprime` returns the non-negative
square root of `rp0^2`, i.e. `|rp0|`. -/
theorem rprime_at_rm_eq_r0 (K emit r0 rp0 : ℝ) (hr0 : 0 < r0) :
    r0 / r0 = 1 ∧ Real.log (r0 / r0) = 0 ∧
      (1 / r0 ^ 2 - 1 / r0 ^ 2 : ℝ) = 0 ∧
      rprime Real.sqrt Real.log K emit r0 rp0 r0 = |rp0| := by
  have hd : r0 / r0 = 1 := div_self hr0.ne'
  refine ⟨hd, by rw [hd]; exact Real.log_one, by ring, ?_⟩
  have harg : radicand Real.log K emit r0 rp0 r0 = rp0 ^ 2 := by
    simp only [radicand, hd, Real.log_one]
    ring
  rw [rprime, harg, Real.sqrt_sq_eq_abs]

/-- Witness for C10 at `K = 0, emit = 0, r0 = 1, rp0 = -2`. -/
theorem rprime_at_rm_eq_r0_witness :
    (1 : ℝ) / 1 = 1 ∧ Real.log ((1 : ℝ) / 1) = 0 ∧
      (1 / (1 : ℝ) ^ 2 - 1 / (1 : ℝ) ^ 2) = 0 ∧
      rprime Real.sqrt Real.log 0 0 1 (-2) 1 = |(-2 : ℝ)| :=
  rprime_at_rm_eq_r0 0 0 1 (-2) one_pos

/-- C9: for `I ≥ 0`, `beta ∈ (0,1)` and `gamma > 1`, the perveance at zero
current is exactly `0`, the result does not depend on the
charge-neutralization factor `cn`, and the denominators `beta^3` and
`gamma^3` of the formula are non-zero (finiteness: in the real-number
model no division by zero occurs; the reals have no infinities). -/
theorem calc_perveance_zero_finite_cn (I : ℝ) (ref : Reference_particle ℝ)
    (cn : ℝ) (hI : 0 ≤ I) (hb0 : 0 < ref.beta) (hb1 : ref.beta < 1)
    (hg : 1 < ref.gamma) :
    calc_perveance 0 ref cn = 0 ∧
      (∀ cn1 cn2 : ℝ, calc_perveance I ref cn1 = calc_perveance I ref cn2) ∧
      ref.beta ^ 3 ≠ 0 ∧ ref.gamma ^ 3 ≠ 0 := by
  refine ⟨?_, fun cn1 cn2 => rfl, pow_ne_zero _ hb0.ne',
    pow_ne_zero _ (zero_lt_one.trans hg).ne'⟩
  simp [calc_perveance]

/-- Witness for C9 at `I = 1, beta = 1/2, gamma = 2, cn = 5`. -/
theorem calc_perveance_zero_finite_cn_witness :
    calc_perveance 0 (⟨1/2, 2⟩ : Reference_particle ℝ) 5 = 0 ∧
      (∀ cn1 cn2 : ℝ, calc_perveance 1 (⟨1/2, 2⟩ : Reference_particle ℝ) cn1 =
        calc_perveance 1 (⟨1/2, 2⟩ : Reference_particle ℝ) cn2) ∧
      ((⟨1/2, 2⟩ : Reference_particle ℝ)).beta ^ 3 ≠ 0 ∧
      ((⟨1/2, 2⟩ : Reference_particle ℝ)).gamma ^ 3 ≠ 0 :=
  calc_perveance_zero_finite_cn 1 ⟨1/2, 2⟩ 5 (by norm_num) (by norm_num)
    (by norm_num) (by norm_num)

end ClaimTheorems

section ClaimC4

/-- C4 (counterexample): the claim asserts that the `I0` used inside
`calc_perveance` is the value returned by `calc_characteristic_current`
(`4*pi*epsilon_0*m_p*c^3/e ≈ 3.1297e7`).  In the code `I0` is the
hard-coded rounded literal `3.13e7`, which is strictly larger: at
`I = 3.13e7`, `beta = 1/2`, `gamma = 2` (valid kinematics) the code
returns `2`, while the claimed formula with
`I0 = calc_characteristic_current` gives a strictly larger value. -/
theorem calc_perveance_I0_counterexample :
    calc_perveance (3.13e7 : ℝ) ⟨1/2, 2⟩ 0 ≠
      3.13e7 / calc_characteristic_current Real.pi *
        (2 / (1/2 : ℝ) ^ 3) * (1 / (2 : ℝ) ^ 3) := by
  have hB : (0 : ℝ) < 4 * scipy_epsilon_0 * scipy_m_p * scipy_c ^ 3 / scipy_e := by
    norm_num [scipy_epsilon_0, scipy_m_p, scipy_c, scipy_e]
  have hC_eq : calc_characteristic_current Real.pi =
      Real.pi * (4 * scipy_epsilon_0 * scipy_m_p * scipy_c ^ 3 / scipy_e) := by
    rw [calc_characteristic_current]; ring
  have hCpos : 0 < calc_characteristic_current Real.pi := by
    rw [hC_eq]; exact mul_pos Real.pi_pos hB
  have hClt : calc_characteristic_current Real.pi < 3.13e7 := by
    rw [hC_eq]
    calc Real.pi * (4 * scipy_epsilon_0 * scipy_m_p * scipy_c ^ 3 / scipy_e)
        < 3.141593 * (4 * scipy_epsilon_0 * scipy_m_p * scipy_c ^ 3 / scipy_e) :=
          mul_lt_mul_of_pos_right Real.pi_lt_d6 hB
      _ ≤ 3.13e7 := by
          norm_num [scipy_epsilon_0, scipy_m_p, scipy_c, scipy_e]
  have hL : calc_perveance (3.13e7 : ℝ) ⟨1/2, 2⟩ 0 = 2 := by
    norm_num [calc_perveance, Reference_particle.get_beta,
      Reference_particle.get_gamma]
  have hR : 3.13e7 / calc_characteristic_current Real.pi *
      (2 / (1/2 : ℝ) ^ 3) * (1 / (2 : ℝ) ^ 3) =
      3.13e7 / calc_characteristic_current Real.pi * 2 := by
    ring
  have h1 : (1 : ℝ) < 3.13e7 / calc_characteristic_current Real.pi :=
    (one_lt_div hCpos).2 hClt
  rw [hL, hR]
  intro hEq
  nlinarith [h1]

/-- C4 (amended): for every current `I` and reference particle with
`beta ∈ (0,1)` and `gamma > 1`, `calc_perveance` returns
`(I/I0)*(2/beta^3)*(1/gamma^3)` where `I0` is the hard-coded constant
`3.13e7` — a rounded approximation of, but not equal to, the
characteristic current returned by `calc_characteristic_current`. -/
theorem calc_perveance_hardcoded_I0 (I : ℝ) (ref : Reference_particle ℝ)
    (cn : ℝ) (hb0 : 0 < ref.beta) (hb1 : ref.beta < 1) (hg : 1 < ref.gamma) :
    calc_perveance I ref cn =
      I / 3.13e7 * (2 / ref.beta ^ 3) * (1 / ref.gamma ^ 3) := rfl

/-- Witness for the amended C4 at `I = 1, beta = 1/2, gamma = 2`. -/
theorem calc_perveance_hardcoded_I0_witness :
    calc_perveance (1 : ℝ) ⟨1/2, 2⟩ 0 =
      1 / 3.13e7 * (2 / (1/2 : ℝ) ^ 3) * (1 / (2 : ℝ) ^ 3) :=
  calc_perveance_hardcoded_I0 1 ⟨1/2, 2⟩ 0 (by norm_num) (by norm_num)
    (by norm_num)

end ClaimC4

section ClaimC678

/-- C6: for `N ≥ 1` and `zf > 0` the trajectory returned by
`calculate_expansion` has exactly one sample appended per loop iteration
while `z < zf`; in the exact-arithmetic model its length is exactly `N`
(hence within one of `N`), and its first sample is exactly `(0, r0)`. -/
theorem calculate_expansion_length_first (amb : Ambient ℝ) (current : ℝ)
    (ref : Reference_particle ℝ) (r0 rp0 emit : ℝ) (N : ℕ) (zf : ℝ)
    (hN : 1 ≤ N) (hzf : 0 < zf) :
    (calculate_expansion Real.sqrt Real.log amb current ref r0 rp0 emit
      N zf).length = N ∧
      (calculate_expansion Real.sqrt Real.log amb current ref r0 rp0 emit
        N zf).head? = some (0, r0) := by
  have hN' : 0 < N := hN
  have hNR : (0 : ℝ) < (N : ℝ) := by exact_mod_cast hN'
  constructor
  · simp only [calculate_expansion]
    apply expansionLoop_length
    intro k hk
    have hkN : (k : ℝ) < (N : ℝ) := by exact_mod_cast hk
    have hdz : (0 : ℝ) < (zf - 0) / (N : ℝ) := div_pos (by linarith) hNR
    have h1 : (k : ℝ) * ((zf - 0) / (N : ℝ)) <
        (N : ℝ) * ((zf - 0) / (N : ℝ)) :=
      mul_lt_mul_of_pos_right hkN hdz
    have h2 : (N : ℝ) * ((zf - 0) / (N : ℝ)) = zf := by
      field_simp
    linarith
  · obtain ⟨m, rfl⟩ := Nat.exists_eq_succ_of_ne_zero hN'.ne'
    simp only [calculate_expansion]
    simp [expansionLoop, hzf]

/-- Witness for C6 at `N = 2`, `zf = 1`, `r0 = 1`. -/
theorem calculate_expansion_length_first_witness :
    (calculate_expansion Real.sqrt Real.log (⟨⟨1/2, 2⟩, 1⟩ : Ambient ℝ) 0
      ⟨1/2, 2⟩ 1 0 0 2 1).length = 2 ∧
      (calculate_expansion Real.sqrt Real.log (⟨⟨1/2, 2⟩, 1⟩ : Ambient ℝ) 0
        ⟨1/2, 2⟩ 1 0 0 2 1).head? = some (0, 1) :=
  calculate_expansion_length_first ⟨⟨1/2, 2⟩, 1⟩ 0 ⟨1/2, 2⟩ 1 0 0 2 1
    (by norm_num) (by norm_num)

/-- C7: for `N ≥ 1` and `zf > 0` the driver's while loop terminates — the
loop run with any iteration budget `m ≥ N` produces the same trajectory as
the driver (the loop condition `z < zf` fails after exactly `N` steps of
the fixed positive step `h = (zf-0)/N`) — and the `z` values of consecutive
samples of the returned trajectory are strictly increasing. -/
theorem calculate_expansion_terminates_strict_z (amb : Ambient ℝ)
    (current : ℝ) (ref : Reference_particle ℝ) (r0 rp0 emit : ℝ) (N : ℕ)
    (zf : ℝ) (m : ℕ) (hN : 1 ≤ N) (hzf : 0 < zf) (hm : N ≤ m) :
    expansionLoop
        (fun r => rprime Real.sqrt Real.log
          (calc_perveance current amb.reference_particle 0) emit r0
          amb.rprime0 r)
        ((zf - 0) / (N : ℝ)) zf m 0 r0 =
      calculate_expansion Real.sqrt Real.log amb current ref r0 rp0 emit
        N zf ∧
      List.Chain' (fun p q : ℝ × ℝ => p.1 < q.1)
        (calculate_expansion Real.sqrt Real.log amb current ref r0 rp0 emit
          N zf) := by
  have hN' : 0 < N := hN
  have hNR : (0 : ℝ) < (N : ℝ) := by exact_mod_cast hN'
  have hdz : (0 : ℝ) < (zf - 0) / (N : ℝ) := div_pos (by linarith) hNR
  constructor
  · simp only [calculate_expansion]
    apply expansionLoop_stable
    · have h2 : (N : ℝ) * ((zf - 0) / (N : ℝ)) = zf := by field_simp
      linarith
    · exact hm
  · simp only [calculate_expansion]
    apply expansionLoop_chain
    intro z r hz
    show z < z + (zf - 0) / (N : ℝ)
    linarith

/-- Witness for C7 at `N = 2`, `m = 3`, `zf = 1`. -/
theorem calculate_expansion_terminates_strict_z_witness :
    expansionLoop
        (fun r => rprime Real.sqrt Real.log
          (calc_perveance 0 (⟨1/2, 2⟩ : Reference_particle ℝ) 0) 0 1 1 r)
        ((1 - 0) / ((2 : ℕ) : ℝ)) 1 3 0 1 =
      calculate_expansion Real.sqrt Real.log (⟨⟨1/2, 2⟩, 1⟩ : Ambient ℝ) 0
        ⟨1/2, 2⟩ 1 1 0 2 1 ∧
      List.Chain' (fun p q : ℝ × ℝ => p.1 < q.1)
        (calculate_expansion Real.sqrt Real.log (⟨⟨1/2, 2⟩, 1⟩ : Ambient ℝ) 0
          ⟨1/2, 2⟩ 1 1 0 2 1) :=
  calculate_expansion_terminates_strict_z ⟨⟨1/2, 2⟩, 1⟩ 0 ⟨1/2, 2⟩ 1 1 0 2 1 3
    (by norm_num) (by norm_num) (by norm_num)

/-- C8: a zero-current run with `rp0 ≥ 0`, `r0 > 0`, `zf > 0` (and
`N ≥ 1`) produces a trajectory whose `r` values are monotonically
non-decreasing: every increment is `h * sqrt(...) ≥ 0` since the slope
function returns a non-negative square root and the step is positive. -/
theorem calculate_expansion_zero_current_monotone (amb : Ambient ℝ)
    (ref : Reference_particle ℝ) (r0 rp0 emit : ℝ) (N : ℕ) (zf : ℝ)
    (hrp0 : 0 ≤ rp0) (hr0 : 0 < r0) (hN : 1 ≤ N) (hzf : 0 < zf) :
    List.Chain' (fun p q : ℝ × ℝ => p.2 ≤ q.2)
      (calculate_expansion Real.sqrt Real.log amb 0 ref r0 rp0 emit N zf) := by
  have hN' : 0 < N := hN
  have hNR : (0 : ℝ) < (N : ℝ) := by exact_mod_cast hN'
  have hdz : (0 : ℝ) ≤ (zf - 0) / (N : ℝ) := le_of_lt (div_pos (by linarith) hNR)
  simp only [calculate_expansion]
  apply expansionLoop_chain
  intro z r hz
  show r ≤ r + Ralston r z ((zf - 0) / (N : ℝ)) _
  rw [Ralston_eq_euler]
  have hf : (0 : ℝ) ≤ rprime Real.sqrt Real.log
      (calc_perveance 0 amb.reference_particle 0) emit r0 amb.rprime0 r :=
    Real.sqrt_nonneg _
  nlinarith [mul_nonneg hdz hf]

/-- Witness for C8 at `r0 = 1, rp0 = 0, N = 1, zf = 1`. -/
theorem calculate_expansion_zero_current_monotone_witness :
    List.Chain' (fun p q : ℝ × ℝ => p.2 ≤ q.2)
      (calculate_expansion Real.sqrt Real.log (⟨⟨1/2, 2⟩, 1⟩ : Ambient ℝ) 0
        ⟨1/2, 2⟩ 1 0 0 1 1) :=
  calculate_expansion_zero_current_monotone ⟨⟨1/2, 2⟩, 1⟩ ⟨1/2, 2⟩ 1 0 0 1 1
    le_rfl one_pos (by norm_num) (by norm_num)

end ClaimC678

section EvalHelpers

/-- One unfolding of the while loop when the condition `z < zf` holds. -/
theorem expansionLoop_succ {α : Type*} [LinearOrderedField α] (f : α → α)
    (dz zf : α) (n : ℕ) (z r : α) (h : z < zf) :
    expansionLoop f dz zf (n + 1) z r =
      (z, r) :: expansionLoop f dz zf n (z + dz) (r + Ralston r z dz f) := by
  simp [expansionLoop, h]

/-- Concrete three-step run of the loop with `dz = 1`, `zf = 3`, starting
at `(0, 1)`, for a slope with `f 1 = 1` and `f 2 = 0`. -/
theorem expansionLoop_eval_three (f : ℝ → ℝ) (hf1 : f 1 = 1) (hf2 : f 2 = 0) :
    expansionLoop f 1 3 3 0 1 = [(0, 1), (1, 2), (2, 2)] := by
  rw [show (3 : ℕ) = 2 + 1 from rfl,
    expansionLoop_succ f 1 3 2 0 1 (by norm_num)]
  rw [Ralston_eq_euler 1 0 1 f]
  norm_num [hf1]
  rw [show (2 : ℕ) = 1 + 1 from rfl,
    expansionLoop_succ f 1 3 1 1 2 (by norm_num)]
  rw [Ralston_eq_euler 2 1 1 f]
  norm_num [hf2]
  rw [expansionLoop_succ f 1 3 0 2 2 (by norm_num)]
  rw [Ralston_eq_euler 2 2 1 f]
  norm_num [hf2]
  rfl

/-- Concrete two-step run of the loop with `dz = 1/2`, `zf = 1`, starting
at `(0, 1)`, for a slope with `f 1 = c`. -/
theorem expansionLoop_eval_two (f : ℝ → ℝ) (c : ℝ) (hf : f 1 = c) :
    expansionLoop f (1/2) 1 2 0 1 = [(0, 1), (1/2, 1 + 1/2 * c)] := by
  rw [show (2 : ℕ) = 1 + 1 from rfl,
    expansionLoop_succ f (1/2) 1 1 0 1 (by norm_num)]
  rw [Ralston_eq_euler 1 0 (1/2) f]
  norm_num [hf]
  rw [expansionLoop_succ f (1/2) 1 0 (1/2) (1 + 1/2 * c) (by norm_num)]
  rfl

theorem sqrt_four_eq_two : Real.sqrt 4 = 2 := by
  rw [show (4 : ℝ) = 2 ^ 2 by norm_num, Real.sqrt_sq (by norm_num : (0:ℝ) ≤ 2)]

end EvalHelpers

section ClaimC2C5

/-- C2 (code bug evaluation): the claim states that `calculate_expansion`
depends only on its explicit arguments, with the slope bound to the `rp0`
argument and the perveance computed from the reference-particle argument.
In the code the parameter `reference_paricle` (sic) and the parameter
`rp0` are dead: the body reads the session globals `reference_particle`
and `rprime0`.  Concretely, two calls differing in the `rp0` argument
(`1` vs `2`) and in the reference-particle argument return identical
trajectories, while two calls with identical explicit arguments but a
different session value of `rprime0` (`1` vs `2`) return different
trajectories. -/
theorem calculate_expansion_ignores_explicit_slope_args :
    (calculate_expansion Real.sqrt Real.log (⟨⟨1/2, 2⟩, 1⟩ : Ambient ℝ) 0
        ⟨1/2, 2⟩ 1 1 0 2 1 =
      calculate_expansion Real.sqrt Real.log (⟨⟨1/2, 2⟩, 1⟩ : Ambient ℝ) 0
        ⟨3/4, 3⟩ 1 2 0 2 1) ∧
      calculate_expansion Real.sqrt Real.log (⟨⟨1/2, 2⟩, 1⟩ : Ambient ℝ) 0
          ⟨1/2, 2⟩ 1 1 0 2 1 ≠
        calculate_expansion Real.sqrt Real.log (⟨⟨1/2, 2⟩, 2⟩ : Ambient ℝ) 0
          ⟨1/2, 2⟩ 1 1 0 2 1 := by
  constructor
  · rfl
  · have hK : calc_perveance (0 : ℝ) ⟨1/2, 2⟩ 0 = 0 := by
      norm_num [calc_perveance, Reference_particle.get_beta,
        Reference_particle.get_gamma]
    have hF1 : rprime Real.sqrt Real.log (0 : ℝ) 0 1 1 1 = 1 := by
      have h1 : radicand Real.log (0 : ℝ) 0 1 1 1 = 1 := by
        simp only [radicand]
        norm_num
      rw [rprime, h1, Real.sqrt_one]
    have hF2 : rprime Real.sqrt Real.log (0 : ℝ) 0 1 2 1 = 2 := by
      have h1 : radicand Real.log (0 : ℝ) 0 1 2 1 = 4 := by
        simp only [radicand]
        norm_num
      rw [rprime, h1, sqrt_four_eq_two]
    have hA : calculate_expansion Real.sqrt Real.log
        (⟨⟨1/2, 2⟩, 1⟩ : Ambient ℝ) 0 ⟨1/2, 2⟩ 1 1 0 2 1 =
        expansionLoop (fun r => rprime Real.sqrt Real.log (0 : ℝ) 0 1 1 r)
          (1/2) 1 2 0 1 := by
      simp only [calculate_expansion]
      norm_num [hK]
    have hB : calculate_expansion Real.sqrt Real.log
        (⟨⟨1/2, 2⟩, 2⟩ : Ambient ℝ) 0 ⟨1/2, 2⟩ 1 1 0 2 1 =
        expansionLoop (fun r => rprime Real.sqrt Real.log (0 : ℝ) 0 1 2 r)
          (1/2) 1 2 0 1 := by
      simp only [calculate_expansion]
      norm_num [hK]
    rw [hA, hB, expansionLoop_eval_two _ _ hF1, expansionLoop_eval_two _ _ hF2]
    norm_num

/-- C5 (counterexample): the claim states that a negative bracketed term
during integration makes the computation fail with an explicit error,
aborting the trajectory.  In this run (`K = -8` from a negative current,
`emit = 0`, `r0 = 1`, session `rprime0 = 1`, `N = 3`, `zf = 3`) the
bracket at the reached radius `rm = 2` is `1 - 4*ln 2 < 0`, yet the
returned trajectory is the full three samples `[(0,1), (1,2), (2,2)]` —
no step aborts (in NumPy the square root of the negative bracket is a
silent NaN; in this real-valued model `Real.sqrt` of it is `0`). -/
theorem negative_radicand_silent_counterexample :
    radicand Real.log (-8 : ℝ) 0 1 1 2 < 0 ∧
      calculate_expansion Real.sqrt Real.log (⟨⟨1/2, 2⟩, 1⟩ : Ambient ℝ)
          (-125200000) ⟨1/2, 2⟩ 1 1 0 3 3 =
        [(0, 1), (1, 2), (2, 2)] := by
  have hlog2 : (0.6931471803 : ℝ) < Real.log 2 := Real.log_two_gt_d9
  have hrad : radicand Real.log (-8 : ℝ) 0 1 1 2 < 0 := by
    simp only [radicand]
    norm_num
    nlinarith [hlog2]
  refine ⟨hrad, ?_⟩
  have hK : calc_perveance (-125200000 : ℝ) ⟨1/2, 2⟩ 0 = -8 := by
    norm_num [calc_perveance, Reference_particle.get_beta,
      Reference_particle.get_gamma]
  have hF1 : rprime Real.sqrt Real.log (-8 : ℝ) 0 1 1 1 = 1 := by
    have h1 : radicand Real.log (-8 : ℝ) 0 1 1 1 = 1 := by
      simp only [radicand]
      norm_num
    rw [rprime, h1, Real.sqrt_one]
  have hF2 : rprime Real.sqrt Real.log (-8 : ℝ) 0 1 1 2 = 0 := by
    rw [rprime]
    exact Real.sqrt_eq_zero'.2 (le_of_lt hrad)
  have hstep : calculate_expansion Real.sqrt Real.log
      (⟨⟨1/2, 2⟩, 1⟩ : Ambient ℝ) (-125200000) ⟨1/2, 2⟩ 1 1 0 3 3 =
      expansionLoop (fun r => rprime Real.sqrt Real.log (-8 : ℝ) 0 1 1 r)
        1 3 3 0 1 := by
    simp only [calculate_expansion]
    norm_num [hK]
  rw [hstep]
  exact expansionLoop_eval_three _ hF1 hF2

/-- C5 (amended): when the bracketed term evaluates negative the code does
not fail: `rprime` has no guard and no error path, and unconditionally
returns `np.sqrt` applied to the bracket (a silent NaN in NumPy), so the
integration loop keeps running — as witnessed concretely by the
counterexample's full-length trajectory. -/
theorem rprime_silent_on_negative_radicand (K emit r0 rp0 rm : ℝ)
    (h : radicand Real.log K emit r0 rp0 rm < 0) :
    rprime Real.sqrt Real.log K emit r0 rp0 rm =
      Real.sqrt (radicand Real.log K emit r0 rp0 rm) := rfl

/-- Witness for the amended C5 at `K = 0, emit = 1, r0 = 1, rp0 = 0,
rm = 1/2`, where the bracket is `-3`. -/
theorem rprime_silent_on_negative_radicand_witness :
    rprime Real.sqrt Real.log 0 1 1 0 (1/2) =
      Real.sqrt (radicand Real.log 0 1 1 0 (1/2)) :=
  rprime_silent_on_negative_radicand 0 1 1 0 (1/2)
    (by simp only [radicand]; norm_num)

end ClaimC2C5
